/- Verification of the KA-route service core: a shallow embedding, in Lean 4, of
   the caching, rate-limiting, HTML-extraction, proxying, URL-building and
   route-sampling logic of the repository (src/api/main.py,
   src/api/ebay-kleinanzeigen-api/scrapers/inserate.py), together with theorems
   settling the specification claims about that logic.  Machine integers do not
   occur (Python integers are unbounded); byte sizes and times are Nat / Rat. -/
import Mathlib

namespace KARoute

/- ### Disk cache: size-bounded eviction (src/api/main.py lines 118-147) -/

/-- CACHE_LIMIT = 8 * 1024**3 from main.py line 121. -/
def CACHE_LIMIT : Nat := 8 * 1024 ^ 3

/-- One cache entry file: name, last-modified time, size in bytes. -/
structure CEntry where
  name : String
  mtime : Nat
  size : Nat
deriving DecidableEq

/-- Aggregate byte size of a directory listing, as _current_cache_size. -/
def totalSize (l : List CEntry) : Nat := (l.map CEntry.size).sum

/-- Ordering by modification time, the sort key of _enforce_cache_limit. -/
def mtimeLe (a b : CEntry) : Prop := a.mtime ≤ b.mtime

instance : DecidableRel mtimeLe := fun a b => Nat.decLe a.mtime b.mtime

instance : IsTotal CEntry mtimeLe := ⟨fun a b => Nat.le_total a.mtime b.mtime⟩

instance : IsTrans CEntry mtimeLe := ⟨fun _ _ _ h1 h2 => Nat.le_trans h1 h2⟩

/-- The sorted(..., key=mtime) listing of _enforce_cache_limit line 139. -/
def sortByMtime (l : List CEntry) : List CEntry := List.insertionSort mtimeLe l

/-- The while loop of _enforce_cache_limit lines 141-147: while the tracked
    size exceeds the limit and files remain, pop the oldest file, subtract its
    size and unlink it.  Returns the surviving entries. -/
def evictLoop (limit : Nat) : List CEntry → Nat → List CEntry
  | [], _ => []
  | f :: rest, size =>
      if limit < size then evictLoop limit rest (size - f.size) else f :: rest

/-- _enforce_cache_limit (main.py lines 138-147) on a directory listing. -/
def enforceCacheLimit (dir : List CEntry) : List CEntry :=
  evictLoop CACHE_LIMIT (sortByMtime dir) (totalSize dir)

/-- One cache write followed by eviction, as in inserate lines 327-332:
    write_text replaces any file of the same name (fresh mtime t), then
    _enforce_cache_limit runs. -/
def cachePut (dir : List CEntry) (t : Nat) (n : String) (sz : Nat) : List CEntry :=
  enforceCacheLimit (⟨n, t, sz⟩ :: dir.filter (fun e => e.name != n))

/-- A sequence of writes, each followed by eviction, starting at time t;
    write times are strictly increasing. -/
def runPutsFrom (t : Nat) (dir : List CEntry) : List (String × Nat) → List CEntry
  | [] => dir
  | (n, sz) :: ops => runPutsFrom (t + 1) (cachePut dir t n sz) ops

/-- A sequence of cache writes, each followed by eviction, on an empty cache. -/
def runPuts (ops : List (String × Nat)) : List CEntry := runPutsFrom 0 [] ops

/- ### Global rate limiter (src/api/main.py lines 113-116 and 220-233) -/

/-- RATE_LIMIT_SECONDS = 1.0 from main.py line 114. -/
def RATE_LIMIT_SECONDS : ℚ := 1

/-- One serialized pass through the critical section of _rate_limit
    (lines 225-232): now = time.monotonic(); wait = RATE_LIMIT_SECONDS -
    (now - last); sleep wait if positive; record time.monotonic() again.
    slack ≥ 0 models both that asyncio.sleep never wakes early and that the
    second clock read happens after the sleep; it returns the recorded
    _last_request value. -/
def rateStep (last now slack : ℚ) : ℚ :=
  if 0 < RATE_LIMIT_SECONDS - (now - last) then
    now + (RATE_LIMIT_SECONDS - (now - last)) + slack
  else now + slack

/-- The recorded admission timestamps for a serialized trace of requests,
    each given by its lock-acquisition clock reading and its slack. -/
def admitTimes (last : ℚ) : List (ℚ × ℚ) → List ℚ
  | [] => []
  | (now, slack) :: reqs =>
      rateStep last now slack :: admitTimes (rateStep last now slack) reqs

/- ### Cache-read phases of the three cache-bearing endpoints -/

/-- State of a cache entry file on disk when the endpoint checks it:
    absent, or present with flags for whether the bytes can be read and
    whether the content parses/validates. -/
inductive FileState where
  | absent
  | file (readable : Bool) (wellFormed : Bool)
deriving DecidableEq

/-- Outcome of the cache-check phase of an endpoint. -/
inductive CacheOutcome where
  | hit
  | missDeleted
  | missAbsent
  | raised
deriving DecidableEq

/-- inserate, main.py lines 292-300: if the file exists, try reading and
    validating it; on any exception unlink(missing_ok=True) and fall through
    to a miss. -/
def inserateCacheStep : FileState → CacheOutcome
  | .absent => .missAbsent
  | .file r w => if r && w then .hit else .missDeleted

/-- proxy (Nominatim cache), main.py lines 386-394: if the file exists,
    return Response(cache_file.read_bytes()) with no try/except — a failing
    read raises out of the handler and nothing is deleted.  The content is
    never parsed. -/
def proxyCacheStep : FileState → CacheOutcome
  | .absent => .missAbsent
  | .file r _ => if r then .hit else .raised

/-- ors_proxy, main.py lines 445-450: same unguarded read_bytes as proxy. -/
def orsCacheStep : FileState → CacheOutcome
  | .absent => .missAbsent
  | .file r _ => if r then .hit else .raised

/-- Claim C5 as stated, for one endpoint: an existing entry that fails to
    read or parse is treated as a miss, the file is deleted, and no error is
    surfaced. -/
def cacheRecoveryClaim (step : FileState → CacheOutcome) : Prop :=
  ∀ r w : Bool, ¬(r = true ∧ w = true) → step (.file r w) = .missDeleted

/- ### The /proxy endpoint (src/api/main.py lines 364-422) -/

/-- Inputs that the claim and the tests (src/tests/test_proxy.py) control:
    the PROXY_ALLOW_HOSTS allow-list, the host of the requested URL, whether
    DNS resolves it to a private/loopback address, and whether a Nominatim
    cache entry exists. -/
structure ProxyRequest where
  allowHosts : List String
  host : String
  resolvesPrivate : Bool
  nominatimCached : Bool

/-- What the handler does with the request. -/
inductive ProxyOutcome where
  | cachedResponse
  | fetchedUpstream
  | rejected
deriving DecidableEq

/-- The /proxy handler decision logic as written (main.py lines 364-422):
    the only host inspection is the Nominatim cache test on line 386; there
    is no allow-list lookup and no resolved-address check anywhere in the
    handler, so every non-cached request is fetched. -/
def proxyEndpoint (req : ProxyRequest) : ProxyOutcome :=
  if req.host == "nominatim.openstreetmap.org" && req.nominatimCached then
    .cachedResponse
  else
    .fetchedUpstream

/-- Claim C6 as stated: a host off the allow-list, or one resolving to a
    private/loopback address, is rejected and never fetched. -/
def proxyGuardClaim : Prop :=
  ∀ req : ProxyRequest,
    req.host ∉ req.allowHosts ∨ req.resolvesPrivate = true →
      proxyEndpoint req = .rejected

/- ### get_inserate_klaz URL construction (scrapers/inserate.py lines 8-61) -/

/-- Python truthiness of an optional string (None and "" are falsy). -/
def pyTruthyStr : Option String → Bool
  | none => false
  | some s => s != ""

/-- Python truthiness of an optional int (None and 0 are falsy). -/
def pyTruthyInt : Option Int → Bool
  | none => false
  | some n => n != 0

/-- str(min_price) if min_price is not None else "" (inserate.py 21-22). -/
def optIntStr : Option Int → String
  | some n => toString n
  | none => ""

/-- location.replace(" ", "-") from inserate.py lines 24, 42. -/
def slugify (s : String) : String :=
  String.mk (s.data.map (fun c => if c = ' ' then '-' else c))

/-- The keyword arguments of get_inserate_klaz that shape the URL. -/
structure KlazArgs where
  query : Option String
  location : Option String
  radius : Option Int
  categoryId : Option Int
  minPrice : Option Int
  maxPrice : Option Int

/-- search_path from inserate.py lines 20-51 (the f-string placeholder
    page survives literally as the text between braces). -/
def searchPath (a : KlazArgs) : String :=
  if a.minPrice.isSome || a.maxPrice.isSome then
    let minS := optIntStr a.minPrice
    let maxS := optIntStr a.maxPrice
    if pyTruthyStr a.location then
      let slug := slugify (a.location.getD "")
      match a.categoryId with
      | some cid =>
          "/s-" ++ slug ++ "/preis:" ++ minS ++ ":" ++ maxS ++ "/c" ++
            toString cid ++ "/seite:{page}"
      | none =>
          "/s-" ++ slug ++ "/preis:" ++ minS ++ ":" ++ maxS ++ "/seite:{page}"
    else
      match a.categoryId with
      | some cid =>
          "/s-preis:" ++ minS ++ ":" ++ maxS ++ "/c" ++ toString cid ++
            "/seite:{page}"
      | none => "/s-preis:" ++ minS ++ ":" ++ maxS ++ "/seite:{page}"
  else
    if pyTruthyStr a.location then
      let slug := slugify (a.location.getD "")
      match a.categoryId with
      | some cid => "/s-" ++ slug ++ "/c" ++ toString cid ++ "/seite:{page}"
      | none => "/s-" ++ slug ++ "/seite:{page}"
    else
      match a.categoryId with
      | some cid => "/s-/c" ++ toString cid ++ "/seite:{page}"
      | none => "/s-seite:{page}"

/-- params from inserate.py lines 53-59: keywords if query is truthy,
    locationStr if location is truthy and not (min_price or max_price),
    radius if radius is truthy; dict insertion order preserved. -/
def searchParams (a : KlazArgs) : List (String × String) :=
  (if pyTruthyStr a.query then [("keywords", a.query.getD "")] else []) ++
    (if pyTruthyStr a.location && !(pyTruthyInt a.minPrice || pyTruthyInt a.maxPrice)
      then [("locationStr", a.location.getD "")] else []) ++
    (if pyTruthyInt a.radius then [("radius", toString (a.radius.getD 0))] else [])

/-- UTF-8 bytes of one character. -/
def utf8Encode (c : Char) : List Nat :=
  let v := c.toNat
  if v < 128 then [v]
  else if v < 2048 then [192 + v / 64, 128 + v % 64]
  else if v < 65536 then [224 + v / 4096, 128 + v / 64 % 64, 128 + v % 64]
  else [240 + v / 262144, 128 + v / 4096 % 64, 128 + v / 64 % 64, 128 + v % 64]

/-- Uppercase hex digit for percent-encoding. -/
def hexDigUpper (n : Nat) : Char :=
  match n with
  | 0 => '0' | 1 => '1' | 2 => '2' | 3 => '3' | 4 => '4'
  | 5 => '5' | 6 => '6' | 7 => '7' | 8 => '8' | 9 => '9'
  | 10 => 'A' | 11 => 'B' | 12 => 'C' | 13 => 'D' | 14 => 'E'
  | _ => 'F'

/-- Percent-encoding of one character for urlencode (quote_plus): keep
    ASCII alphanumerics and _.-~, turn space into +, percent-encode the
    UTF-8 bytes of everything else. -/
def quotePlusChar (c : Char) : List Char :=
  if c = ' ' then ['+']
  else if c.isAlphanum || c = '_' || c = '.' || c = '-' || c = '~' then [c]
  else
    (utf8Encode c).flatMap (fun b => ['%', hexDigUpper (b / 16), hexDigUpper (b % 16)])

/-- urlencode(params) from inserate.py line 61. -/
def urlencode (ps : List (String × String)) : String :=
  String.intercalate "&"
    (ps.map (fun p =>
      String.mk ((p.1.data.flatMap quotePlusChar) ++ '=' :: p.2.data.flatMap quotePlusChar)))

/-- search_url from inserate.py line 61. -/
def searchUrl (a : KlazArgs) : String :=
  "https://www.kleinanzeigen.de" ++ searchPath a ++
    (if searchParams a = [] then "" else "?" ++ urlencode (searchParams a))

/-- Whether the params dict carries the locationStr query parameter. -/
def hasLocationStr (ps : List (String × String)) : Bool :=
  ps.any (fun p => p.1 == "locationStr")

/-- Substring test on character lists (needle occurs contiguously). -/
def hasSeg (needle : List Char) : List Char → Bool
  | [] => needle.isEmpty
  | c :: r => needle.isPrefixOf (c :: r) || hasSeg needle r

/-- Whether the search path contains the price segment marker. -/
def pathHasPreis (a : KlazArgs) : Bool := hasSeg "preis:".data (searchPath a).data

/- ### Detail extractor: parse_listing_details (src/api/main.py lines 150-217)

   The BeautifulSoup and json.loads collaborators are external libraries; the
   document model below carries their outputs: the og:title / title-element /
   og:image findings (outer Option: tag present; inner Option: attribute or
   string value, which BeautifulSoup reports as None when missing) and, per
   ld+json script, the json.loads outcome (none models json.JSONDecodeError,
   caught on lines 170-171).  The raw HTML text is kept for the regex
   fallback.  Character classes of the regex are modelled on ASCII. -/

/-- A parsed Python/JSON value as returned by json.loads. -/
inductive PyVal where
  | pynull
  | pybool (b : Bool)
  | pyint (n : Int)
  | pystr (s : String)
  | pylist (l : List PyVal)
  | pydict (d : List (String × PyVal))

/-- Python exceptions that parse_listing_details can raise. -/
inductive PyErr where
  | attributeError
deriving DecidableEq

/-- Python truthiness of a value. -/
def pyTruthy : PyVal → Bool
  | .pynull => false
  | .pybool b => b
  | .pyint n => n != 0
  | .pystr s => s != ""
  | .pylist l => !l.isEmpty
  | .pydict d => !d.isEmpty

/-- Python x or y (value-returning, short-circuit on truthiness). -/
def pyOr (a b : PyVal) : PyVal := if pyTruthy a then a else b

/-- dict.get(k) on a parsed object (None when the key is absent); parsed
    objects are modelled with unique keys, as json.loads produces. -/
def dget (d : List (String × PyVal)) (k : String) : PyVal :=
  match List.lookup k d with
  | some v => v
  | none => .pynull

/-- dict.get(k, dflt). -/
def dgetD (d : List (String × PyVal)) (k : String) (dflt : PyVal) : PyVal :=
  match List.lookup k d with
  | some v => v
  | none => dflt

/-- v.get(k) on an arbitrary value: AttributeError unless v is a dict. -/
def attrGet (v : PyVal) (k : String) : Except PyErr PyVal :=
  match v with
  | .pydict d => .ok (dget d k)
  | _ => .error .attributeError

/-- v.get(k, dflt) on an arbitrary value. -/
def attrGetD (v : PyVal) (k : String) (dflt : PyVal) : Except PyErr PyVal :=
  match v with
  | .pydict d => .ok (dgetD d k dflt)
  | _ => .error .attributeError

/-- The address chain of main.py lines 179-183:
    obj.get("address") or obj.get("itemOffered", {}).get("address") or
    obj.get("offers", {}).get("seller", {}).get("address"); the nested .get
    calls raise AttributeError when the nested value is not a dict. -/
def addrOf (obj : List (String × PyVal)) : Except PyErr PyVal := do
  let a := dget obj "address"
  if pyTruthy a then return a
  let t := dgetD obj "itemOffered" (.pydict [])
  let b ← attrGet t "address"
  if pyTruthy b then return b
  let u := dgetD obj "offers" (.pydict [])
  let s ← attrGetD u "seller" (.pydict [])
  attrGet s "address"

/-- The mutable locals of the ld+json loop. -/
structure ExtState where
  postal : PyVal
  city : PyVal
  image : PyVal
  price : PyVal

/-- postal = postal or addr.get("postalCode") or addr.get("postcode") or
    addr.get("zip")  (main.py lines 185-190). -/
def postalChain (p : PyVal) (ad : List (String × PyVal)) : PyVal :=
  pyOr (pyOr (pyOr p (dget ad "postalCode")) (dget ad "postcode")) (dget ad "zip")

/-- city = city or addr.get("addressLocality") or addr.get("city") or
    addr.get("town")  (main.py lines 191-196). -/
def cityChain (c : PyVal) (ad : List (String × PyVal)) : PyVal :=
  pyOr (pyOr (pyOr c (dget ad "addressLocality")) (dget ad "city")) (dget ad "town")

/-- if isinstance(addr, dict): update postal and city (main.py 184-196). -/
def applyAddr (st : ExtState) (addr : PyVal) : ExtState :=
  match addr with
  | .pydict ad => { st with postal := postalChain st.postal ad,
                            city := cityChain st.city ad }
  | _ => st

/-- if not image and (img := obj.get("image")): take img[0] for a list,
    img for a string (main.py lines 197-201). -/
def applyImage (st : ExtState) (obj : List (String × PyVal)) : ExtState :=
  if !pyTruthy st.image && pyTruthy (dget obj "image") then
    match dget obj "image" with
    | .pylist (x :: _) => { st with image := x }
    | .pystr s => { st with image := .pystr s }
    | _ => st
  else st

/-- if not price: offers = obj.get("offers"); if isinstance(offers, dict):
    price = offers.get("price") or price (main.py lines 202-205). -/
def applyPrice (st : ExtState) (obj : List (String × PyVal)) : ExtState :=
  if !pyTruthy st.price then
    match dget obj "offers" with
    | .pydict od => { st with price := pyOr (dget od "price") st.price }
    | _ => st
  else st

/-- One iteration of the inner loop (main.py 176-205): skip non-dict items,
    evaluate the address chain (which may raise), then the three updates. -/
def stepObj (st : ExtState) (v : PyVal) : Except PyErr ExtState :=
  match v with
  | .pydict obj =>
      (addrOf obj).map (fun addr => applyPrice (applyImage (applyAddr st addr) obj) obj)
  | _ => .ok st

/-- items = data if isinstance(data, list) else [data]; a block that failed
    json.loads is skipped by the continue on line 171. -/
def itemsOf : Option PyVal → List PyVal
  | none => []
  | some (.pylist l) => l
  | some v => [v]

/-- All structured-data items of the document in document order. -/
def flatItems (scripts : List (Option PyVal)) : List PyVal :=
  (scripts.map itemsOf).flatten

/-- The document model handed to the extractor (see section comment). -/
structure Doc where
  ogTitle : Option (Option String)
  docTitle : Option (Option String)
  ogImage : Option (Option String)
  ldScripts : List (Option PyVal)
  html : List Char

/-- image = meta.get("content") when the og:image meta tag exists
    (main.py lines 159-161), else None. -/
def initImage (doc : Doc) : PyVal :=
  match doc.ogImage with
  | some (some s) => .pystr s
  | _ => .pynull

/-- Python str.strip() on both ends (ASCII whitespace model). -/
def isStripWs (c : Char) : Bool :=
  c = ' ' || c = '\t' || c = '\n' || c = '\x0d' || c = '\x0b' || c = '\x0c'

/-- str.strip(). -/
def pyStrip (s : String) : String :=
  String.mk (((s.data.dropWhile isStripWs).reverse.dropWhile isStripWs).reverse)

/-- Truthiness of the title local (a str-or-None Python value). -/
def pyTruthyOptStr : Option String → Bool
  | none => false
  | some s => s != ""

/-- The title logic of main.py lines 153-157 and 212: og:title content if
    the meta tag exists; if that is falsy and a title element exists, the
    element string; finally strip() when the result is a string. -/
def titleOf (doc : Doc) : Option String :=
  let t0 : Option String :=
    match doc.ogTitle with
    | some content => content
    | none => none
  let t1 : Option String :=
    if !pyTruthyOptStr t0 && doc.docTitle.isSome then doc.docTitle.getD none else t0
  t1.map pyStrip

/-- ASCII model of the regex word class for the boundary assertions. -/
def isWordCh (c : Char) : Bool := c.isAlphanum || c = '_'

/-- re.search of a five-digit token delimited by word boundaries
    (main.py line 208), scanning positions left to right; prev is the
    character before the current position. -/
def find5Aux (prev : Option Char) (l : List Char) : Option String :=
  match l with
  | c1 :: c2 :: c3 :: c4 :: c5 :: rest =>
      if (match prev with | none => true | some p => !isWordCh p) &&
          (c1.isDigit && c2.isDigit && c3.isDigit && c4.isDigit && c5.isDigit) &&
          (match rest with | [] => true | r :: _ => !isWordCh r) then
        some (String.mk [c1, c2, c3, c4, c5])
      else find5Aux (some c1) (c2 :: c3 :: c4 :: c5 :: rest)
  | _ => none

/-- First standalone five-digit token of the raw HTML. -/
def find5 (html : List Char) : Option String := find5Aux none html

/-- The returned mapping of main.py lines 211-217. -/
structure Details where
  title : Option String
  image : PyVal
  postal : PyVal
  city : PyVal
  price : PyVal

/-- The regex fallback and final assembly (main.py lines 207-217). -/
def finalize (doc : Doc) (st : ExtState) : Details :=
  let postal :=
    if pyTruthy st.postal then st.postal
    else
      match find5 doc.html with
      | some s => .pystr s
      | none => st.postal
  { title := titleOf doc, image := st.image, postal := postal,
    city := st.city, price := st.price }

/-- The ld+json loop of main.py lines 167-205. -/
def runLd (doc : Doc) : Except PyErr ExtState :=
  (flatItems doc.ldScripts).foldlM stepObj ⟨.pynull, .pynull, initImage doc, .pynull⟩

/-- parse_listing_details (main.py lines 150-217) over the document model. -/
def parseListingDetails (doc : Doc) : Except PyErr Details :=
  (runLd doc).map (finalize doc)

/- ### Claim-side functions for C7 and C8 -/

/-- Claim C7, structured-data part: per address object, the first non-empty
    value among postalCode, postcode, zip. -/
def postalCand (ad : List (String × PyVal)) : Option PyVal :=
  let q := pyOr (pyOr (dget ad "postalCode") (dget ad "postcode")) (dget ad "zip")
  if pyTruthy q then some q else none

/-- Claim C7: the first non-empty candidate across address objects in
    document order; later blocks cannot overwrite it. -/
def firstPostalCand : List (List (String × PyVal)) → Option PyVal
  | [] => none
  | ad :: ads =>
      match postalCand ad with
      | some q => some q
      | none => firstPostalCand ads

/-- Collect the address dictionaries of the structured-data items in
    document order (propagating the same AttributeError as the code). -/
def addrDictStep (acc : List (List (String × PyVal))) (v : PyVal) :
    Except PyErr (List (List (String × PyVal))) :=
  match v with
  | .pydict obj =>
      (addrOf obj).map (fun addr =>
        match addr with
        | .pydict ad => acc ++ [ad]
        | _ => acc)
  | _ => .ok acc

/-- The address dictionaries a document exposes, in document order. -/
def addrDictsOf (scripts : List (Option PyVal)) :
    Except PyErr (List (List (String × PyVal))) :=
  (flatItems scripts).foldlM addrDictStep []

/-- Claim C7 as a predicate on the produced details: the postal field is
    the first non-empty structured-data candidate; only when there is none
    does the five-digit fallback apply; with neither, postal stays unresolved
    (falsy). -/
def postalSpecProp (doc : Doc) (det : Details)
    (ads : List (List (String × PyVal))) : Prop :=
  match firstPostalCand ads with
  | some q => det.postal = q
  | none =>
      match find5 doc.html with
      | some s => det.postal = .pystr s
      | none => pyTruthy det.postal = false

/-- Claim C8 as stated: the title is the og:title content whenever the meta
    tag is present, else the title element string when present, else null;
    trimmed when a string. -/
def titleClaimSpec (doc : Doc) : Option String :=
  match doc.ogTitle with
  | some content => content.map pyStrip
  | none =>
      match doc.docTitle with
      | some s => s.map pyStrip
      | none => none

/-- Claim C8 amended: the og:title content wins only when it is non-empty;
    an og:title tag with empty or missing content falls through to the title
    element; with no title element the falsy og content itself is kept. -/
def titleAmendedSpec (doc : Doc) : Option String :=
  let t0 : Option String :=
    match doc.ogTitle with
    | some content => content
    | none => none
  if pyTruthyOptStr t0 then t0.map pyStrip
  else
    match doc.docTitle with
    | some s => s.map pyStrip
    | none => t0.map pyStrip

/-- The failing input for C4: a single well-formed ld+json block whose
    itemOffered value is a string, as in
    script = {"itemOffered": "x"}. -/
def c4Doc : Doc :=
  { ogTitle := none, docTitle := none, ogImage := none,
    ldScripts := [some (.pydict [("itemOffered", .pystr "x")])], html := [] }

/-- A document with no signals at all. -/
def emptyDoc : Doc :=
  { ogTitle := none, docTitle := none, ogImage := none, ldScripts := [], html := [] }

/-- A document with one well-formed address block (witness input for C7). -/
def c7Doc : Doc :=
  { ogTitle := none, docTitle := none, ogImage := none,
    ldScripts := [some (.pydict [("address", .pydict [("postalCode", .pystr "10115")])])],
    html := [] }

/-- The counterexample document for C8: og:title present with empty content,
    title element present with text. -/
def c8Doc : Doc :=
  { ogTitle := some (some ""), docTitle := some (some "Hi"), ogImage := none,
    ldScripts := [], html := [] }

/-- Request arguments for C10, with the price filter left variable:
    a truthy query, the location Berlin, the default radius, no category. -/
def klazAt (mp : Option Int) : KlazArgs :=
  { query := some "kite", location := some "Berlin", radius := some 10,
    categoryId := none, minPrice := mp, maxPrice := none }

/- ### Route sampling (GeoRouter step 3)

   Modelled from the spec: the route-sampling code of the repository is not
   under src/ (spec section 4.4, step 3): walk the ordered route coordinate
   sequence; maintain accumulated planar distance since the last sample,
   approximating meters via an equirectangular projection scaled by
   latitude-dependent longitude compression; whenever the accumulated
   distance reaches the configured step, emit the current coordinate and
   reset the accumulator.  Coordinates are (lon, lat) pairs in degrees; the
   conventional 111320 meters-per-degree constant is used.  The definitions
   are noncomputable because the spec formula uses cos and sqrt. -/

/-- Modelled from the spec: equirectangular planar distance in meters
    between two (lon, lat) degree coordinates. -/
noncomputable def equirectDist (p q : ℝ × ℝ) : ℝ :=
  111320 *
    Real.sqrt (((q.1 - p.1) * Real.cos ((p.2 + q.2) / 2 * (Real.pi / 180))) ^ 2 +
      (q.2 - p.2) ^ 2)

open scoped Classical in
/-- Modelled from the spec: the walk with accumulator; prev is the previous
    coordinate on the path, acc the distance accumulated since the last
    sample; on acc reaching the step the current coordinate is emitted and
    the accumulator resets. -/
noncomputable def sampleAux (d : ℝ × ℝ → ℝ × ℝ → ℝ) (step : ℝ) :
    ℝ × ℝ → ℝ → List (ℝ × ℝ) → List (ℝ × ℝ)
  | _, _, [] => []
  | prev, acc, c :: cs =>
      let acc2 := acc + d prev c
      if step ≤ acc2 then c :: sampleAux d step c 0 cs
      else sampleAux d step c acc2 cs

/-- Modelled from the spec: sample a route polyline at the given step. -/
noncomputable def sampleRoute (d : ℝ × ℝ → ℝ × ℝ → ℝ) (step : ℝ) :
    List (ℝ × ℝ) → List (ℝ × ℝ)
  | [] => []
  | c0 :: cs => sampleAux d step c0 0 cs

/-- A straight 25 km meridian polyline at constant longitude 13, one point
    per kilometer: point i sits i * 1000 meters north of the start. -/
noncomputable def routePt (i : ℕ) : ℝ × ℝ := (13, i * (1000 / 111320))

/-- The 26 polyline points of the 25 km route. -/
noncomputable def routePts : List (ℝ × ℝ) :=
  [routePt 0, routePt 1, routePt 2, routePt 3, routePt 4, routePt 5,
   routePt 6, routePt 7, routePt 8, routePt 9, routePt 10, routePt 11,
   routePt 12, routePt 13, routePt 14, routePt 15, routePt 16, routePt 17,
   routePt 18, routePt 19, routePt 20, routePt 21, routePt 22, routePt 23,
   routePt 24, routePt 25]

/- ### Cache keys: _cache_key (src/api/main.py lines 124-127)

   _cache_key(obj) = sha256(json.dumps(obj, sort_keys=True,
   separators=(",", ":")).encode()).hexdigest().  The parameter mappings fed
   to it are flat string-keyed dicts with string / int / null values (the
   inserate cache_params of lines 284-291), modelled as association lists
   with unique keys.  json.dumps escapes with ensure_ascii=True, so the
   canonical text is pure ASCII and .encode() is the identity on character
   codes. -/

/-- A JSON parameter value. -/
inductive JVal where
  | jnull
  | jint (n : Int)
  | jstr (s : String)
deriving DecidableEq

/-- Lowercase hex digit, as the json and hashlib encoders emit. -/
def hexDig (n : Nat) : Char :=
  match n with
  | 0 => '0' | 1 => '1' | 2 => '2' | 3 => '3' | 4 => '4'
  | 5 => '5' | 6 => '6' | 7 => '7' | 8 => '8' | 9 => '9'
  | 10 => 'a' | 11 => 'b' | 12 => 'c' | 13 => 'd' | 14 => 'e'
  | _ => 'f'

/-- Four lowercase hex digits of a value below 65536. -/
def encHex4 (n : Nat) : List Char :=
  [hexDig (n / 4096 % 16), hexDig (n / 256 % 16), hexDig (n / 16 % 16),
   hexDig (n % 16)]

/-- json.dumps string escaping with ensure_ascii=True: backslash, quote and
    the five short control escapes; printable ASCII verbatim; everything
    else as uXXXX escapes, astral characters as surrogate pairs. -/
def encChar (c : Char) : List Char :=
  let v := c.toNat
  if v = 92 then ['\\', '\\']
  else if v = 34 then ['\\', '"']
  else if v = 8 then ['\\', 'b']
  else if v = 9 then ['\\', 't']
  else if v = 10 then ['\\', 'n']
  else if v = 12 then ['\\', 'f']
  else if v = 13 then ['\\', 'r']
  else if 32 ≤ v && v ≤ 126 then [c]
  else if v < 65536 then ['\\', 'u'] ++ encHex4 v
  else
    ['\\', 'u'] ++ encHex4 (55296 + (v - 65536) / 1024) ++
      ['\\', 'u'] ++ encHex4 (56320 + (v - 65536) % 1024)

/-- Escaped body of a JSON string literal. -/
def encStrBody (s : List Char) : List Char := (s.map encChar).flatten

/-- A JSON string literal with its quotes. -/
def encStr (s : String) : List Char := '"' :: (encStrBody s.data ++ ['"'])

/-- Decimal digits of a natural number, as str(int) prints them. -/
def natDigs (n : Nat) : List Char :=
  if h : n < 10 then [hexDig n]
  else natDigs (n / 10) ++ [hexDig (n % 10)]
decreasing_by exact Nat.div_lt_self (by omega) (by omega)

/-- str(int) for a Python integer. -/
def encInt : Int → List Char
  | .ofNat n => natDigs n
  | .negSucc m => '-' :: natDigs (m + 1)

/-- Serialization of one JSON value. -/
def encVal : JVal → List Char
  | .jnull => ['n', 'u', 'l', 'l']
  | .jint n => encInt n
  | .jstr s => encStr s

/-- One key:value pair with the (",", ":") separators of _cache_key. -/
def encPair (p : String × JVal) : List Char := encStr p.1 ++ ':' :: encVal p.2

/-- The remaining pairs of an object body, each preceded by a comma, closed
    by the brace. -/
def encPairsTail : List (String × JVal) → List Char
  | [] => ['}']
  | p :: ps => ',' :: (encPair p ++ encPairsTail ps)

/-- A serialized JSON object. -/
def encObj : List (String × JVal) → List Char
  | [] => ['{', '}']
  | p :: ps => '{' :: (encPair p ++ encPairsTail ps)

/-- Key order used by sort_keys=True. -/
def keyLe (p q : String × JVal) : Prop := p.1 ≤ q.1

instance : DecidableRel keyLe := fun p q => inferInstanceAs (Decidable (p.1 ≤ q.1))

instance : IsTotal (String × JVal) keyLe := ⟨fun p q => le_total p.1 q.1⟩

instance : IsTrans (String × JVal) keyLe := ⟨fun _ _ _ h1 h2 => le_trans h1 h2⟩

/-- The sorted pair list of json.dumps(obj, sort_keys=True). -/
def sortPairs (l : List (String × JVal)) : List (String × JVal) :=
  List.insertionSort keyLe l

/-- The canonical serialization json.dumps(obj, sort_keys=True,
    separators=(",", ":")). -/
def canonChars (l : List (String × JVal)) : List Char := encObj (sortPairs l)

/-- .encode() of the canonical text (pure ASCII by ensure_ascii). -/
def asciiBytes (l : List Char) : List Nat := l.map Char.toNat

/- SHA-256 (hashlib.sha256), on byte lists, with Nat words reduced mod 2^32. -/

/-- 2 to the 32. -/
def M32 : Nat := 4294967296

/-- Rotate a 32-bit word right by n. -/
def rotr (n x : Nat) : Nat := (x >>> n ||| x <<< (32 - n)) % M32

/-- SHA-256 small sigma 0. -/
def ssig0 (x : Nat) : Nat := rotr 7 x ^^^ rotr 18 x ^^^ (x >>> 3)

/-- SHA-256 small sigma 1. -/
def ssig1 (x : Nat) : Nat := rotr 17 x ^^^ rotr 19 x ^^^ (x >>> 10)

/-- SHA-256 big sigma 0. -/
def bsig0 (x : Nat) : Nat := rotr 2 x ^^^ rotr 13 x ^^^ rotr 22 x

/-- SHA-256 big sigma 1. -/
def bsig1 (x : Nat) : Nat := rotr 6 x ^^^ rotr 11 x ^^^ rotr 25 x

/-- SHA-256 choice function. -/
def chFn (x y z : Nat) : Nat := (x &&& y) ^^^ ((x ^^^ 4294967295) &&& z)

/-- SHA-256 majority function. -/
def majFn (x y z : Nat) : Nat := (x &&& y) ^^^ (x &&& z) ^^^ (y &&& z)

/-- The 64 SHA-256 round constants. -/
def shaK : List Nat :=
  [1116352408, 1899447441, 3049323471, 3921009573, 961987163,
   1508970993, 2453635748, 2870763221, 3624381080, 310598401,
   607225278, 1426881987, 1925078388, 2162078206, 2614888103,
   3248222580, 3835390401, 4022224774, 264347078, 604807628,
   770255983, 1249150122, 1555081692, 1996064986, 2554220882,
   2821834349, 2952996808, 3210313671, 3336571891, 3584528711,
   113926993, 338241895, 666307205, 773529912, 1294757372,
   1396182291, 1695183700, 1986661051, 2177026350, 2456956037,
   2730485921, 2820302411, 3259730800, 3345764771, 3516065817,
   3600352804, 4094571909, 275423344, 430227734, 506948616,
   659060556, 883997877, 958139571, 1322822218, 1537002063,
   1747873779, 1955562222, 2024104815, 2227730452, 2361852424,
   2428436474, 2756734187, 3204031479, 3329325298]

/-- The SHA-256 initial state. -/
def shaInit : List Nat :=
  [1779033703, 3144134277, 1013904242, 2773480762,
   1359893119, 2600822924, 528734635, 1541459225]

/-- Group bytes into big-endian 32-bit words. -/
def toWords : List Nat → List Nat
  | b1 :: b2 :: b3 :: b4 :: r =>
      (b1 * 16777216 + b2 * 65536 + b3 * 256 + b4) :: toWords r
  | _ => []

/-- SHA-256 padding: a 0x80 byte, zeros to 56 mod 64, the bit length in
    eight big-endian bytes. -/
def padMsg (msg : List Nat) : List Nat :=
  let bitLen := 8 * msg.length
  msg ++ 128 :: List.replicate ((119 - msg.length % 64) % 64) 0 ++
    [bitLen / 72057594037927936 % 256, bitLen / 281474976710656 % 256,
     bitLen / 1099511627776 % 256, bitLen / 4294967296 % 256,
     bitLen / 16777216 % 256, bitLen / 65536 % 256, bitLen / 256 % 256,
     bitLen % 256]

/-- Extend the 16 block words by k scheduled words. -/
def extendWs (w : List Nat) : Nat → List Nat
  | 0 => w
  | k + 1 =>
      extendWs
        (w ++ [(ssig1 (w.getD (w.length - 2) 0) + w.getD (w.length - 7) 0 +
                ssig0 (w.getD (w.length - 15) 0) + w.getD (w.length - 16) 0) % M32])
        k

/-- One SHA-256 round on the 8-word state. -/
def shaRound (st : List Nat) (kw : Nat × Nat) : List Nat :=
  match st with
  | [a, b, c, d, e, f, g, h] =>
      let t1 := (h + bsig1 e + chFn e f g + kw.1 + kw.2) % M32
      let t2 := (bsig0 a + majFn a b c) % M32
      [(t1 + t2) % M32, a, b, c, (d + t1) % M32, e, f, g]
  | other => other

/-- Word-wise mod-2^32 sum of two states. -/
def addStates (s1 s2 : List Nat) : List Nat :=
  (s1.zip s2).map (fun p => (p.1 + p.2) % M32)

/-- Compress one 16-word block into the state. -/
def shaBlock (st : List Nat) (block : List Nat) : List Nat :=
  addStates st ((shaK.zip (extendWs block 48)).foldl shaRound st)

/-- Split a word list into 16-word blocks. -/
def splitBlocks : List Nat → List (List Nat)
  | [] => []
  | x :: xs => (x :: xs).take 16 :: splitBlocks ((x :: xs).drop 16)
termination_by l => l.length
decreasing_by simp [List.length_drop]; omega

/-- The eight 32-bit words of the SHA-256 digest of a byte list. -/
def sha256Words (bytes : List Nat) : List Nat :=
  (splitBlocks (toWords (padMsg bytes))).foldl shaBlock shaInit

/-- Eight lowercase hex digits of a 32-bit word. -/
def wordHex (n : Nat) : List Char := encHex4 (n / 65536) ++ encHex4 (n % 65536)

/-- hexdigest() of the SHA-256 of a byte list. -/
def sha256hex (bytes : List Nat) : String :=
  String.mk ((sha256Words bytes).map wordHex).flatten

/-- _cache_key (main.py lines 124-127). -/
def cacheKey (l : List (String × JVal)) : String :=
  sha256hex (asciiBytes (canonChars l))

/-- The keys of a parameter mapping are distinct (Python dict). -/
def NodupKeys (l : List (String × JVal)) : Prop := (l.map Prod.fst).Nodup

/-- Two canonical texts that collide under SHA-256 while differing. -/
def Sha256Collision (a b : List Char) : Prop :=
  a ≠ b ∧ sha256hex (asciiBytes a) = sha256hex (asciiBytes b)

/- Decoding helpers used to prove the canonical serialization injective. -/

/-- Value of a lowercase hex digit. -/
def decHexDig (c : Char) : Nat :=
  match c with
  | '0' => 0 | '1' => 1 | '2' => 2 | '3' => 3 | '4' => 4
  | '5' => 5 | '6' => 6 | '7' => 7 | '8' => 8 | '9' => 9
  | 'a' => 10 | 'b' => 11 | 'c' => 12 | 'd' => 13 | 'e' => 14 | 'f' => 15
  | _ => 0

/-- Value of four hex digits. -/
def decHex4 (a b c d : Char) : Nat :=
  decHexDig a * 4096 + decHexDig b * 256 + decHexDig c * 16 + decHexDig d

/-- Decode the leading character encoding of an escaped string body,
    returning its code point and the remaining characters. -/
def decodeOne (l : List Char) : Option (Nat × List Char) :=
  match l with
  | [] => none
  | c :: r =>
      if c = '"' then none
      else if c ≠ '\\' then some (c.toNat, r)
      else
        match r with
        | 'u' :: a :: b :: cc :: dd :: r2 =>
            let n := decHex4 a b cc dd
            if 55296 ≤ n ∧ n < 56320 then
              match r2 with
              | '\\' :: 'u' :: a2 :: b2 :: c2 :: d2 :: r3 =>
                  some (65536 + (n - 55296) * 1024 + (decHex4 a2 b2 c2 d2 - 56320), r3)
              | _ => none
            else some (n, r2)
        | e :: r2 =>
            if e = '\\' then some (92, r2)
            else if e = '"' then some (34, r2)
            else if e = 'b' then some (8, r2)
            else if e = 't' then some (9, r2)
            else if e = 'n' then some (10, r2)
            else if e = 'f' then some (12, r2)
            else if e = 'r' then some (13, r2)
            else none
        | [] => none

/-- Consume a run of decimal digits, folding them onto acc. -/
def decDigitsAcc (acc : Nat) : List Char → Nat × List Char
  | [] => (acc, [])
  | c :: r =>
      if c.isDigit then decDigitsAcc (acc * 10 + (c.toNat - 48)) r else (acc, c :: r)

/-- The list does not begin with a decimal digit. -/
def nonDigitHead : List Char → Prop
  | [] => True
  | c :: _ => c.isDigit = false

/-- The list begins with a comma or a closing brace: the contexts in which
    a serialized value ends inside an object. -/
def BdyP : List Char → Prop
  | [] => False
  | c :: _ => c = ',' ∨ c = '}'

/- ### Theorems -/

theorem totalSize_cons (f : CEntry) (l : List CEntry) :
    totalSize (f :: l) = f.size + totalSize l := by
  simp [totalSize]

theorem totalSize_perm {l1 l2 : List CEntry} (h : List.Perm l1 l2) :
    totalSize l1 = totalSize l2 :=
  List.Perm.sum_eq (List.Perm.map CEntry.size h)

theorem evictLoop_total_le (limit : Nat) :
    ∀ files size, size = totalSize files →
      totalSize (evictLoop limit files size) ≤ limit := by
  intro files
  induction files with
  | nil => intro size hs; simp [evictLoop, totalSize]
  | cons f rest ih =>
      intro size hs
      by_cases hlt : limit < size
      · rw [evictLoop, if_pos hlt]
        exact ih (size - f.size) (by rw [hs, totalSize_cons]; omega)
      · rw [evictLoop, if_neg hlt]
        omega

theorem evictLoop_shape (limit : Nat) :
    ∀ files size, size = totalSize files →
      ∃ k, evictLoop limit files size = files.drop k ∧
        ∀ j, j < k → limit < totalSize (files.drop j) := by
  intro files
  induction files with
  | nil =>
      intro size _
      exact ⟨0, by simp [evictLoop], by omega⟩
  | cons f rest ih =>
      intro size hs
      by_cases hlt : limit < size
      · obtain ⟨k, hk, hmin⟩ := ih (size - f.size) (by rw [hs, totalSize_cons]; omega)
        refine ⟨k + 1, ?_, ?_⟩
        · rw [evictLoop, if_pos hlt, List.drop_succ_cons]
          exact hk
        · intro j hj
          cases j with
          | zero => simpa [hs] using hlt
          | succ j2 =>
              rw [List.drop_succ_cons]
              exact hmin j2 (by omega)
      · exact ⟨0, by rw [evictLoop, if_neg hlt, List.drop_zero], by omega⟩

theorem enforce_total_le (dir : List CEntry) :
    totalSize (enforceCacheLimit dir) ≤ CACHE_LIMIT :=
  evictLoop_total_le CACHE_LIMIT (sortByMtime dir) (totalSize dir)
    (totalSize_perm (List.perm_insertionSort mtimeLe dir)).symm

theorem runPutsFrom_total_le :
    ∀ (ops : List (String × Nat)) (t : Nat) (dir : List CEntry),
      totalSize dir ≤ CACHE_LIMIT → totalSize (runPutsFrom t dir ops) ≤ CACHE_LIMIT := by
  intro ops
  induction ops with
  | nil => intro t dir h; simpa [runPutsFrom] using h
  | cons op rest ih =>
      intro t dir h
      obtain ⟨n, sz⟩ := op
      rw [runPutsFrom]
      exact ih (t + 1) _ (enforce_total_le _)

/-- C1: after any sequence of cache writes each followed by eviction, the
    aggregate size of the cache entries is at most the configured 8 GiB
    limit; each eviction keeps exactly a suffix of the mtime-sorted listing,
    so the removed entries are exactly the oldest-mtime ones, removed
    oldest-first, and only as long as the total still exceeds the limit; the
    three 3 GiB writes of the spec example end with the first entry evicted
    and the later two retained. -/
theorem c1_cache_eviction :
    (∀ ops : List (String × Nat), totalSize (runPuts ops) ≤ CACHE_LIMIT) ∧
    (∀ dir : List CEntry,
        List.Sorted mtimeLe (sortByMtime dir) ∧
        ∃ k, enforceCacheLimit dir = (sortByMtime dir).drop k ∧
          ∀ j, j < k → CACHE_LIMIT < totalSize ((sortByMtime dir).drop j)) ∧
    runPuts [("a", 3221225472), ("b", 3221225472), ("c", 3221225472)] =
      [⟨"b", 1, 3221225472⟩, ⟨"c", 2, 3221225472⟩] := by
  refine ⟨fun ops => runPutsFrom_total_le ops 0 [] (by simp [totalSize]), ?_, ?_⟩
  · intro dir
    refine ⟨List.sorted_insertionSort mtimeLe dir, ?_⟩
    exact evictLoop_shape CACHE_LIMIT (sortByMtime dir) (totalSize dir)
      (totalSize_perm (List.perm_insertionSort mtimeLe dir)).symm
  · rfl

theorem rateStep_ge (last now slack : ℚ) (hs : 0 ≤ slack) :
    last + RATE_LIMIT_SECONDS ≤ rateStep last now slack := by
  unfold rateStep
  split_ifs with h
  · linarith
  · push_neg at h
    linarith

/-- C3: in the serialized admission model of the _rate_limit middleware (one
    critical section at a time, a clock read on entry, a sleep of at least
    the computed wait, the new timestamp recorded after the sleep), any two
    consecutive recorded admission timestamps are at least
    RATE_LIMIT_SECONDS apart, for every trace and every starting state; the
    step function is total, so admission only delays and never rejects. -/
theorem c3_rate_spacing (reqs : List (ℚ × ℚ)) (last : ℚ)
    (h : ∀ p ∈ reqs, 0 ≤ p.2) :
    List.Chain' (fun a b => a + RATE_LIMIT_SECONDS ≤ b) (admitTimes last reqs) := by
  induction reqs generalizing last with
  | nil => simp [admitTimes]
  | cons req rest ih =>
      obtain ⟨now, slack⟩ := req
      rw [admitTimes]
      cases rest with
      | nil => simp [admitTimes]
      | cons req2 rest2 =>
          obtain ⟨n2, s2⟩ := req2
          rw [admitTimes]
          refine List.Chain'.cons ?_ ?_
          · exact rateStep_ge _ _ _ (h (n2, s2) (by simp))
          · have hrec := ih (rateStep last now slack)
              (fun p hp => h p (List.mem_cons_of_mem _ hp))
            rw [admitTimes] at hrec
            exact hrec

theorem c3_rate_spacing_witness :
    (∀ p ∈ [((0 : ℚ), (0 : ℚ)), ((0 : ℚ), (0 : ℚ))], 0 ≤ p.2) ∧
      List.Chain' (fun a b => a + RATE_LIMIT_SECONDS ≤ b)
        (admitTimes 0 [((0 : ℚ), (0 : ℚ)), ((0 : ℚ), (0 : ℚ))]) :=
  ⟨by decide, c3_rate_spacing _ _ (by decide)⟩

/-- C5 counterexample: the claim that every cache-bearing endpoint treats a
    failing cache read as a deleted-entry miss is false: the proxy endpoint
    raises on an unreadable Nominatim cache entry. -/
theorem c5_claim_false :
    proxyCacheStep (.file false true) = .raised ∧
      ((cacheRecoveryClaim inserateCacheStep ∧ cacheRecoveryClaim proxyCacheStep ∧
          cacheRecoveryClaim orsCacheStep) → False) := by
  refine ⟨rfl, fun h => ?_⟩
  have h2 := h.2.1 false true (by simp)
  exact absurd h2 (by decide)

/-- C5 amended: only /inserate recovers from a cache entry that fails to
    read or parse (miss, entry deleted, no error); /proxy and /ors read the
    cached bytes unguarded, so an unreadable entry raises out of the handler
    and the file is not deleted. -/
theorem c5_cache_recovery_amended :
    (∀ r w : Bool, ¬(r = true ∧ w = true) →
        inserateCacheStep (.file r w) = .missDeleted) ∧
    (∀ w : Bool, proxyCacheStep (.file false w) = .raised) ∧
    (∀ w : Bool, orsCacheStep (.file false w) = .raised) := by
  refine ⟨?_, fun _ => rfl, fun _ => rfl⟩
  intro r w hrw
  cases r with
  | false => cases w <;> rfl
  | true =>
      cases w with
      | false => rfl
      | true => exact absurd ⟨rfl, rfl⟩ hrw

theorem c5_cache_recovery_witness :
    inserateCacheStep (.file false true) = .missDeleted ∧
      proxyCacheStep (.file false true) = .raised :=
  ⟨c5_cache_recovery_amended.1 false true (by simp),
    c5_cache_recovery_amended.2.1 true⟩

/-- C6: the /proxy handler as written fetches a host that is not on the
    allow-list (here PROXY_ALLOW_HOSTS = example.com and the target host
    blocked.example) instead of rejecting it: no allow-list or
    private-address check exists in the handler, although the tests in
    src/tests/test_proxy.py require a 403 with no fetch. -/
theorem c6_proxy_guard_bug :
    proxyEndpoint ⟨["example.com"], "blocked.example", false, false⟩ =
        .fetchedUpstream ∧
      ¬proxyGuardClaim := by
  refine ⟨rfl, fun h => ?_⟩
  have h2 := h ⟨["example.com"], "blocked.example", false, false⟩
    (Or.inl (by decide))
  exact absurd h2 (by decide)

/-- C10: with a truthy location, min_price = 0 with max_price = None takes
    the price branch (the test is min_price is not None) yet still appends
    locationStr (the truthiness test min_price or max_price is false), so
    the URL carries both the preis path segment and the locationStr
    parameter; for every min_price > 0 the locationStr parameter is omitted
    whatever the other arguments are; and no other min_price value yields
    the both-present shape. -/
theorem c10_min_price_zero_shape :
    (pathHasPreis (klazAt (some 0)) = true ∧
        hasLocationStr (searchParams (klazAt (some 0))) = true) ∧
    (∀ (q loc : Option String) (r cid mx : Option Int) (p : Int), 0 < p →
        hasLocationStr (searchParams ⟨q, loc, r, cid, some p, mx⟩) = false) ∧
    (∀ mp : Option Int, mp ≠ some 0 →
        (pathHasPreis (klazAt mp), hasLocationStr (searchParams (klazAt mp))) ≠
          (true, true)) := by
  refine ⟨by decide, ?_, ?_⟩
  · intro q loc r cid mx p hp
    have hpne : (p != 0) = true := by
      simp only [bne_iff_ne, ne_eq]
      omega
    simp [searchParams, hasLocationStr, pyTruthyInt, hpne]
  · intro mp hmp
    match mp with
    | none => decide
    | some p =>
        have hpne : p ≠ 0 := fun hp0 => hmp (by rw [hp0])
        have hpb : (p != 0) = true := by simp [bne_iff_ne, hpne]
        intro hpair
        have h2 := congrArg Prod.snd hpair
        simp only at h2
        have : hasLocationStr (searchParams (klazAt (some p))) = false := by
          simp [searchParams, hasLocationStr, klazAt, pyTruthyInt, hpb, pyTruthyStr]
        rw [this] at h2
        exact Bool.false_ne_true h2

theorem c10_witness :
    (0 : Int) < 1 ∧
      hasLocationStr (searchParams ⟨some "kite", some "Berlin", some 10, none,
          some 1, none⟩) = false ∧
      (pathHasPreis (klazAt (some 1)), hasLocationStr (searchParams (klazAt (some 1)))) ≠
        (true, true) :=
  ⟨by decide,
    c10_min_price_zero_shape.2.1 (some "kite") (some "Berlin") (some 10) none none 1
      (by decide),
    c10_min_price_zero_shape.2.2 (some 1) (by decide)⟩

/-- C4: the claim that parse_listing_details never raises fails on the code:
    with no signals at all every field is indeed null (first conjunct, the
    robust half of the claim), but a single well-formed structured-data
    block whose itemOffered value is a string makes the chained
    obj.get("itemOffered", {}).get("address") raise AttributeError
    (second conjunct), which propagates out of the function. -/
theorem c4_extractor_robustness_bug :
    parseListingDetails emptyDoc =
        .ok ⟨none, .pynull, .pynull, .pynull, .pynull⟩ ∧
      parseListingDetails c4Doc = .error .attributeError :=
  ⟨rfl, rfl⟩

/-- C8 counterexample: a document with an og:title meta tag of empty content
    and a title element Hi: the code falls through to the title element,
    while the claim as stated keeps the og:title content. -/
theorem c8_title_claim_false :
    titleOf c8Doc = some "Hi" ∧ titleClaimSpec c8Doc = some "" ∧
      (titleOf c8Doc = titleClaimSpec c8Doc → False) := by decide

/-- C8 amended: the title is the og:title content, trimmed, only when that
    content is non-empty; an og:title tag with empty or missing content
    falls through to the title element string (possibly null) when a title
    element exists; with neither source the falsy og content (null, or the
    empty string when the tag carried one) is kept; trimming applies
    whenever the result is a string. -/
theorem c8_title_amended : ∀ doc : Doc, titleOf doc = titleAmendedSpec doc := by
  intro doc
  obtain ⟨og, dt, oi, ld, html⟩ := doc
  simp only [titleOf, titleAmendedSpec]
  cases og with
  | none => cases dt <;> simp [pyTruthyOptStr]
  | some content =>
      cases content with
      | none => cases dt <;> simp [pyTruthyOptStr]
      | some s =>
          by_cases hs : s = "" <;> cases dt <;>
            simp [pyTruthyOptStr, hs]

theorem applyImage_postal (st : ExtState) (obj : List (String × PyVal)) :
    (applyImage st obj).postal = st.postal := by
  unfold applyImage
  split
  · split <;> rfl
  · rfl

theorem applyPrice_postal (st : ExtState) (obj : List (String × PyVal)) :
    (applyPrice st obj).postal = st.postal := by
  unfold applyPrice
  split
  · split <;> rfl
  · rfl

theorem stepObj_joint (st : ExtState) (v : PyVal) (st2 : ExtState)
    (acc : List (List (String × PyVal))) (h : stepObj st v = .ok st2) :
    ∃ newAds, addrDictStep acc v = .ok (acc ++ newAds) ∧
      st2.postal = newAds.foldl postalChain st.postal := by
  cases v with
  | pydict obj =>
      rw [stepObj] at h
      cases haddr : addrOf obj with
      | error e => rw [haddr] at h; exact absurd h (by simp [Except.map])
      | ok addr =>
          rw [haddr] at h
          simp only [Except.map, Except.ok.injEq] at h
          cases addr with
          | pydict ad =>
              refine ⟨[ad], by simp [addrDictStep, haddr, Except.map], ?_⟩
              rw [← h, applyPrice_postal, applyImage_postal]
              simp [applyAddr]
          | pynull =>
              refine ⟨[], by simp [addrDictStep, haddr, Except.map], ?_⟩
              rw [← h, applyPrice_postal, applyImage_postal]
              simp [applyAddr]
          | pybool b =>
              refine ⟨[], by simp [addrDictStep, haddr, Except.map], ?_⟩
              rw [← h, applyPrice_postal, applyImage_postal]
              simp [applyAddr]
          | pyint n =>
              refine ⟨[], by simp [addrDictStep, haddr, Except.map], ?_⟩
              rw [← h, applyPrice_postal, applyImage_postal]
              simp [applyAddr]
          | pystr s =>
              refine ⟨[], by simp [addrDictStep, haddr, Except.map], ?_⟩
              rw [← h, applyPrice_postal, applyImage_postal]
              simp [applyAddr]
          | pylist l =>
              refine ⟨[], by simp [addrDictStep, haddr, Except.map], ?_⟩
              rw [← h, applyPrice_postal, applyImage_postal]
              simp [applyAddr]
  | pynull =>
      have h2 : st = st2 := by
        have h3 : (Except.ok st : Except PyErr ExtState) = .ok st2 := h
        simpa using h3
      exact ⟨[], by simp [addrDictStep], by rw [← h2]; simp⟩
  | pybool b =>
      have h2 : st = st2 := by
        have h3 : (Except.ok st : Except PyErr ExtState) = .ok st2 := h
        simpa using h3
      exact ⟨[], by simp [addrDictStep], by rw [← h2]; simp⟩
  | pyint n =>
      have h2 : st = st2 := by
        have h3 : (Except.ok st : Except PyErr ExtState) = .ok st2 := h
        simpa using h3
      exact ⟨[], by simp [addrDictStep], by rw [← h2]; simp⟩
  | pystr s =>
      have h2 : st = st2 := by
        have h3 : (Except.ok st : Except PyErr ExtState) = .ok st2 := h
        simpa using h3
      exact ⟨[], by simp [addrDictStep], by rw [← h2]; simp⟩
  | pylist l =>
      have h2 : st = st2 := by
        have h3 : (Except.ok st : Except PyErr ExtState) = .ok st2 := h
        simpa using h3
      exact ⟨[], by simp [addrDictStep], by rw [← h2]; simp⟩

theorem foldlM_joint :
    ∀ (items : List PyVal) (st0 stF : ExtState)
      (acc : List (List (String × PyVal))),
      items.foldlM stepObj st0 = .ok stF →
      ∃ newAds, items.foldlM addrDictStep acc = .ok (acc ++ newAds) ∧
        stF.postal = newAds.foldl postalChain st0.postal := by
  intro items
  induction items with
  | nil =>
      intro st0 stF acc h
      have h2 : st0 = stF := by
        have h3 : (Except.ok st0 : Except PyErr ExtState) = .ok stF := h
        simpa using h3
      subst h2
      exact ⟨[], by rw [List.append_nil]; rfl, by simp⟩
  | cons v rest ih =>
      intro st0 stF acc h
      rw [List.foldlM_cons] at h
      cases h1 : stepObj st0 v with
      | error e =>
          rw [h1] at h
          exact Except.noConfusion (h : (Except.error e : Except PyErr ExtState) = .ok stF)
      | ok st1 =>
          rw [h1] at h
          have h2 : rest.foldlM stepObj st1 = .ok stF := h
          obtain ⟨n1, ha1, hp1⟩ := stepObj_joint st0 v st1 acc h1
          obtain ⟨n2, ha2, hp2⟩ := ih st1 stF (acc ++ n1) h2
          refine ⟨n1 ++ n2, ?_, ?_⟩
          · rw [List.foldlM_cons, ha1]
            show rest.foldlM addrDictStep (acc ++ n1) = .ok (acc ++ (n1 ++ n2))
            rw [ha2, List.append_assoc]
          · rw [hp2, hp1, List.foldl_append]

theorem foldl_postalChain_truthy :
    ∀ (ads : List (List (String × PyVal))) (p : PyVal), pyTruthy p = true →
      ads.foldl postalChain p = p := by
  intro ads
  induction ads with
  | nil => intro p _; rfl
  | cons ad rest ih =>
      intro p hp
      rw [List.foldl_cons]
      have hchain : postalChain p ad = p := by simp [postalChain, pyOr, hp]
      rw [hchain]
      exact ih p hp

theorem postalChain_falsy (p : PyVal) (ad : List (String × PyVal))
    (hp : pyTruthy p = false) :
    postalChain p ad =
      pyOr (pyOr (dget ad "postalCode") (dget ad "postcode")) (dget ad "zip") := by
  simp only [postalChain, pyOr, hp]
  simp

theorem firstPostalCand_some_truthy :
    ∀ (ads : List (List (String × PyVal))) (q : PyVal),
      firstPostalCand ads = some q → pyTruthy q = true := by
  intro ads
  induction ads with
  | nil => intro q h; exact absurd h (by simp [firstPostalCand])
  | cons ad rest ih =>
      intro q h
      rw [firstPostalCand] at h
      cases hc : postalCand ad with
      | some q0 =>
          rw [hc] at h
          simp only [Option.some.injEq] at h
          subst h
          unfold postalCand at hc
          by_cases ht : pyTruthy (pyOr (pyOr (dget ad "postalCode")
              (dget ad "postcode")) (dget ad "zip")) = true
          · rw [if_pos ht] at hc
            simp only [Option.some.injEq] at hc
            rw [← hc]
            exact ht
          · rw [if_neg ht] at hc
            exact absurd hc (by simp)
      | none =>
          rw [hc] at h
          exact ih q h

theorem foldl_postalChain_spec :
    ∀ (ads : List (List (String × PyVal))) (p : PyVal), pyTruthy p = false →
      (match firstPostalCand ads with
       | some q => ads.foldl postalChain p = q
       | none => pyTruthy (ads.foldl postalChain p) = false) := by
  intro ads
  induction ads with
  | nil =>
      intro p hp
      simpa [firstPostalCand] using hp
  | cons ad rest ih =>
      intro p hp
      rw [firstPostalCand, List.foldl_cons, postalChain_falsy p ad hp]
      by_cases hq : pyTruthy (pyOr (pyOr (dget ad "postalCode")
          (dget ad "postcode")) (dget ad "zip")) = true
      · rw [postalCand, if_pos hq]
        exact foldl_postalChain_truthy rest _ hq
      · have hq2 : pyTruthy (pyOr (pyOr (dget ad "postalCode")
            (dget ad "postcode")) (dget ad "zip")) = false :=
          Bool.eq_false_iff.mpr hq
        rw [postalCand, if_neg hq]
        exact ih _ hq2

/-- C7: on every run of parse_listing_details that returns (does not raise),
    the postal field equals the first non-empty candidate, tried as
    postalCode then postcode then zip, over the address objects of the
    structured-data blocks in document order, so later blocks cannot
    overwrite it and city resolution plays no role; only when no candidate
    exists does the first standalone five-digit token of the raw HTML apply,
    and with neither the field stays unresolved. -/
theorem c7_postal_resolution (doc : Doc) (det : Details)
    (h : parseListingDetails doc = .ok det) :
    ∃ ads, addrDictsOf doc.ldScripts = .ok ads ∧ postalSpecProp doc det ads := by
  unfold parseListingDetails at h
  cases hr : runLd doc with
  | error e => rw [hr] at h; exact absurd h (by simp [Except.map])
  | ok st =>
      rw [hr] at h
      simp only [Except.map, Except.ok.injEq] at h
      unfold runLd at hr
      obtain ⟨ads, ha, hp⟩ := foldlM_joint (flatItems doc.ldScripts) _ st [] hr
      refine ⟨ads, by simpa [addrDictsOf] using ha, ?_⟩
      unfold postalSpecProp
      have hfold := foldl_postalChain_spec ads PyVal.pynull rfl
      cases hfc : firstPostalCand ads with
      | some q =>
          rw [hfc] at hfold
          have hq := firstPostalCand_some_truthy ads q hfc
          have hpost : pyTruthy st.postal = true := by rw [hp, hfold]; exact hq
          rw [← h]
          simp only [finalize, hpost, if_pos]
          rw [hp, hfold]
      | none =>
          rw [hfc] at hfold
          have hpost : pyTruthy st.postal = false := by rw [hp]; exact hfold
          rw [← h]
          simp only [finalize, hpost]
          cases hf5 : find5 doc.html with
          | some s => simp [hf5]
          | none =>
              simp only [hf5]
              simpa using hpost

theorem c7_witness :
    ∃ ads, addrDictsOf c7Doc.ldScripts = .ok ads ∧
      postalSpecProp c7Doc
        ⟨none, .pynull, .pystr "10115", .pynull, .pynull⟩ ads :=
  c7_postal_resolution c7Doc _ rfl

theorem equirect_north (a b : ℝ) (hab : a ≤ b) :
    equirectDist (13, a) (13, b) = 111320 * (b - a) := by
  unfold equirectDist
  simp only
  rw [show (13 : ℝ) - 13 = 0 by ring, zero_mul,
    show (0 : ℝ) ^ 2 = 0 by norm_num, zero_add, Real.sqrt_sq (by linarith)]

theorem equirect_step (i : ℕ) :
    equirectDist (routePt i) (routePt (i + 1)) = 1000 := by
  have hle : ((i : ℝ)) * (1000 / 111320) ≤ ((i : ℝ) + 1) * (1000 / 111320) := by
    nlinarith [Nat.cast_nonneg (α := ℝ) i]
  unfold routePt
  push_cast
  rw [equirect_north _ _ hle]
  have hdiff : ((i : ℝ) + 1) * (1000 / 111320) - (i : ℝ) * (1000 / 111320) =
      1000 / 111320 := by ring
  rw [hdiff]
  norm_num

/-- C9 (spec-modelled: the route-sampling code is not under src/): the
    sampler accumulates along-path distance and emits the current coordinate
    exactly when a full step has accumulated, resetting the accumulator; on
    a straight 25 km polyline with a 10 km step it yields exactly the two
    intermediate samples at 10 km and 20 km, and the 5 km trailing remainder
    yields no sample at the endpoint. -/
theorem c9_route_sampling :
    sampleRoute equirectDist 10000 routePts = [routePt 10, routePt 20] := by
  have e0 : equirectDist (routePt 0) (routePt 1) = 1000 := equirect_step 0
  have e1 : equirectDist (routePt 1) (routePt 2) = 1000 := equirect_step 1
  have e2 : equirectDist (routePt 2) (routePt 3) = 1000 := equirect_step 2
  have e3 : equirectDist (routePt 3) (routePt 4) = 1000 := equirect_step 3
  have e4 : equirectDist (routePt 4) (routePt 5) = 1000 := equirect_step 4
  have e5 : equirectDist (routePt 5) (routePt 6) = 1000 := equirect_step 5
  have e6 : equirectDist (routePt 6) (routePt 7) = 1000 := equirect_step 6
  have e7 : equirectDist (routePt 7) (routePt 8) = 1000 := equirect_step 7
  have e8 : equirectDist (routePt 8) (routePt 9) = 1000 := equirect_step 8
  have e9 : equirectDist (routePt 9) (routePt 10) = 1000 := equirect_step 9
  have e10 : equirectDist (routePt 10) (routePt 11) = 1000 := equirect_step 10
  have e11 : equirectDist (routePt 11) (routePt 12) = 1000 := equirect_step 11
  have e12 : equirectDist (routePt 12) (routePt 13) = 1000 := equirect_step 12
  have e13 : equirectDist (routePt 13) (routePt 14) = 1000 := equirect_step 13
  have e14 : equirectDist (routePt 14) (routePt 15) = 1000 := equirect_step 14
  have e15 : equirectDist (routePt 15) (routePt 16) = 1000 := equirect_step 15
  have e16 : equirectDist (routePt 16) (routePt 17) = 1000 := equirect_step 16
  have e17 : equirectDist (routePt 17) (routePt 18) = 1000 := equirect_step 17
  have e18 : equirectDist (routePt 18) (routePt 19) = 1000 := equirect_step 18
  have e19 : equirectDist (routePt 19) (routePt 20) = 1000 := equirect_step 19
  have e20 : equirectDist (routePt 20) (routePt 21) = 1000 := equirect_step 20
  have e21 : equirectDist (routePt 21) (routePt 22) = 1000 := equirect_step 21
  have e22 : equirectDist (routePt 22) (routePt 23) = 1000 := equirect_step 22
  have e23 : equirectDist (routePt 23) (routePt 24) = 1000 := equirect_step 23
  have e24 : equirectDist (routePt 24) (routePt 25) = 1000 := equirect_step 24
  rw [routePts, sampleRoute]
  norm_num [sampleAux, e0, e1, e2, e3, e4, e5, e6, e7, e8, e9, e10, e11, e12,
    e13, e14, e15, e16, e17, e18, e19, e20, e21, e22, e23, e24]

theorem char_toNat_inj {c d : Char} (h : c.toNat = d.toNat) : c = d := by
  apply Char.eq_of_val_eq
  simp only [Char.toNat] at h
  exact UInt32.toNat.inj h

theorem char_eq_iff_toNat {c d : Char} : c = d ↔ c.toNat = d.toNat :=
  ⟨fun h => by rw [h], char_toNat_inj⟩

theorem char_not_surrogate (c : Char) : c.toNat < 55296 ∨ 57343 < c.toNat := by
  have h := c.valid
  simp only [Char.toNat]
  rcases h with h | ⟨h1, _⟩
  · exact Or.inl h
  · exact Or.inr (by omega)

theorem char_toNat_lt (c : Char) : c.toNat < 1114112 := by
  have h := c.valid
  simp only [Char.toNat]
  rcases h with h | ⟨_, h2⟩
  · omega
  · exact h2

theorem hexVal_hexDig : ∀ d < 16, decHexDig (hexDig d) = d := by decide

theorem decHex4_encHex4 (v : Nat) (hv : v < 65536) :
    decHex4 (hexDig (v / 4096 % 16)) (hexDig (v / 256 % 16))
      (hexDig (v / 16 % 16)) (hexDig (v % 16)) = v := by
  unfold decHex4
  rw [hexVal_hexDig _ (Nat.mod_lt _ (by norm_num)),
    hexVal_hexDig _ (Nat.mod_lt _ (by norm_num)),
    hexVal_hexDig _ (Nat.mod_lt _ (by norm_num)),
    hexVal_hexDig _ (Nat.mod_lt _ (by norm_num))]
  omega

theorem decodeOne_encChar (c : Char) (r : List Char) :
    decodeOne (encChar c ++ r) = some (c.toNat, r) := by
  have hvalid := char_not_surrogate c
  have hlt := char_toNat_lt c
  simp only [encChar]
  by_cases h92 : c.toNat = 92
  · rw [if_pos h92, h92]
    rfl
  rw [if_neg h92]
  by_cases h34 : c.toNat = 34
  · rw [if_pos h34, h34]
    rfl
  rw [if_neg h34]
  by_cases h8 : c.toNat = 8
  · rw [if_pos h8, h8]
    rfl
  rw [if_neg h8]
  by_cases h9 : c.toNat = 9
  · rw [if_pos h9, h9]
    rfl
  rw [if_neg h9]
  by_cases h10 : c.toNat = 10
  · rw [if_pos h10, h10]
    rfl
  rw [if_neg h10]
  by_cases h12 : c.toNat = 12
  · rw [if_pos h12, h12]
    rfl
  rw [if_neg h12]
  by_cases h13 : c.toNat = 13
  · rw [if_pos h13, h13]
    rfl
  rw [if_neg h13]
  by_cases hplain : 32 ≤ c.toNat && c.toNat ≤ 126
  · rw [if_pos hplain]
    have hq : ¬(c = '"') := fun he => h34 (by rw [he]; rfl)
    have hb : ¬(c = '\\') := fun he => h92 (by rw [he]; rfl)
    simp only [List.cons_append, List.nil_append, decodeOne]
    rw [if_neg hq, if_pos hb]
  rw [if_neg hplain]
  by_cases hbmp : c.toNat < 65536
  · rw [if_pos hbmp]
    have hns : ¬(55296 ≤ decHex4 (hexDig (c.toNat / 4096 % 16))
        (hexDig (c.toNat / 256 % 16)) (hexDig (c.toNat / 16 % 16))
        (hexDig (c.toNat % 16)) ∧
        decHex4 (hexDig (c.toNat / 4096 % 16)) (hexDig (c.toNat / 256 % 16))
          (hexDig (c.toNat / 16 % 16)) (hexDig (c.toNat % 16)) < 56320) := by
      rw [decHex4_encHex4 _ hbmp]
      omega
    simp only [encHex4, List.cons_append, List.nil_append, decodeOne]
    rw [if_neg (by decide : ¬('\\' : Char) = '"'),
      if_neg (by decide : ¬¬('\\' : Char) = '\\')]
    simp only [if_neg hns]
    rw [decHex4_encHex4 _ hbmp]
  · rw [if_neg hbmp]
    push_neg at hbmp
    have hhi : 55296 + (c.toNat - 65536) / 1024 < 65536 := by omega
    have hlo : 56320 + (c.toNat - 65536) % 1024 < 65536 := by
      have := Nat.mod_lt (c.toNat - 65536) (y := 1024) (by norm_num)
      omega
    have hsurr : 55296 ≤ 55296 + (c.toNat - 65536) / 1024 ∧
        55296 + (c.toNat - 65536) / 1024 < 56320 := by
      constructor
      · omega
      · have : (c.toNat - 65536) / 1024 < 1024 := by
          apply Nat.div_lt_of_lt_mul
          omega
        omega
    simp only [encHex4, List.cons_append, List.nil_append, decodeOne]
    rw [if_neg (by decide : ¬('\\' : Char) = '"'),
      if_neg (by decide : ¬¬('\\' : Char) = '\\')]
    rw [decHex4_encHex4 _ hhi]
    simp only [if_pos hsurr]
    rw [decHex4_encHex4 _ hlo]
    have hmod : (c.toNat - 65536) % 1024 < 1024 :=
      Nat.mod_lt _ (by norm_num)
    have hdiv : (c.toNat - 65536) / 1024 < 1024 := by
      apply Nat.div_lt_of_lt_mul
      omega
    simp only [Option.some.injEq, Prod.mk.injEq, and_true]
    omega

theorem encChar_inj (c1 c2 : Char) (x y : List Char)
    (h : encChar c1 ++ x = encChar c2 ++ y) : c1 = c2 ∧ x = y := by
  have d1 := decodeOne_encChar c1 x
  have d2 := decodeOne_encChar c2 y
  rw [h, d2] at d1
  simp only [Option.some.injEq, Prod.mk.injEq] at d1
  exact ⟨(char_toNat_inj d1.1).symm, d1.2.symm⟩

theorem encChar_head (c : Char) :
    ∃ x rest, encChar c = x :: rest ∧ x ≠ '"' := by
  simp only [encChar]
  by_cases h92 : c.toNat = 92
  · rw [if_pos h92]; exact ⟨_, _, rfl, by decide⟩
  rw [if_neg h92]
  by_cases h34 : c.toNat = 34
  · rw [if_pos h34]; exact ⟨_, _, rfl, by decide⟩
  rw [if_neg h34]
  by_cases h8 : c.toNat = 8
  · rw [if_pos h8]; exact ⟨_, _, rfl, by decide⟩
  rw [if_neg h8]
  by_cases h9 : c.toNat = 9
  · rw [if_pos h9]; exact ⟨_, _, rfl, by decide⟩
  rw [if_neg h9]
  by_cases h10 : c.toNat = 10
  · rw [if_pos h10]; exact ⟨_, _, rfl, by decide⟩
  rw [if_neg h10]
  by_cases h12 : c.toNat = 12
  · rw [if_pos h12]; exact ⟨_, _, rfl, by decide⟩
  rw [if_neg h12]
  by_cases h13 : c.toNat = 13
  · rw [if_pos h13]; exact ⟨_, _, rfl, by decide⟩
  rw [if_neg h13]
  by_cases hplain : 32 ≤ c.toNat && c.toNat ≤ 126
  · rw [if_pos hplain]
    exact ⟨c, [], rfl, fun he => h34 (by rw [he]; rfl)⟩
  rw [if_neg hplain]
  by_cases hbmp : c.toNat < 65536
  · rw [if_pos hbmp]
    exact ⟨_, _, rfl, by decide⟩
  · rw [if_neg hbmp]
    exact ⟨_, _, rfl, by decide⟩

theorem encStrBody_nil : encStrBody [] = [] := rfl

theorem encStrBody_cons (c : Char) (s : List Char) :
    encStrBody (c :: s) = encChar c ++ encStrBody s := by
  simp [encStrBody]

theorem strBody_inj :
    ∀ (s1 s2 r1 r2 : List Char),
      encStrBody s1 ++ '"' :: r1 = encStrBody s2 ++ '"' :: r2 →
        s1 = s2 ∧ r1 = r2 := by
  intro s1
  induction s1 with
  | nil =>
      intro s2 r1 r2 h
      cases s2 with
      | nil =>
          simp only [encStrBody_nil] at h
          simp only [List.nil_append, List.cons.injEq] at h
          exact ⟨rfl, h.2⟩
      | cons c2 t2 =>
          rw [encStrBody_nil, encStrBody_cons] at h
          obtain ⟨x, rest, hx, hq⟩ := encChar_head c2
          rw [hx] at h
          simp only [List.nil_append, List.cons_append, List.cons.injEq] at h
          exact absurd h.1.symm hq
  | cons c1 t1 ih =>
      intro s2 r1 r2 h
      cases s2 with
      | nil =>
          rw [encStrBody_nil, encStrBody_cons] at h
          obtain ⟨x, rest, hx, hq⟩ := encChar_head c1
          rw [hx] at h
          simp only [List.nil_append, List.cons_append, List.cons.injEq] at h
          exact absurd h.1 hq
      | cons c2 t2 =>
          rw [encStrBody_cons, encStrBody_cons, List.append_assoc,
            List.append_assoc] at h
          obtain ⟨hc, htail⟩ := encChar_inj c1 c2 _ _ h
          obtain ⟨ht, hr⟩ := ih t2 r1 r2 htail
          exact ⟨by rw [hc, ht], hr⟩

theorem hexDig_digit : ∀ d < 10, (hexDig d).isDigit = true := by decide

theorem hexDig_digit_val : ∀ d < 10, (hexDig d).toNat - 48 = d := by decide

theorem natDigs_head :
    ∀ n : Nat, ∃ c rest, natDigs n = c :: rest ∧ c.isDigit = true := by
  intro n
  induction n using Nat.strong_induction_on with
  | _ n ih =>
      rw [natDigs]
      by_cases h : n < 10
      · rw [dif_pos h]
        exact ⟨hexDig n, [], rfl, hexDig_digit n h⟩
      · rw [dif_neg h]
        obtain ⟨c, rest, hc, hd⟩ := ih (n / 10) (Nat.div_lt_self (by omega) (by omega))
        exact ⟨c, rest ++ [hexDig (n % 10)], by rw [hc]; rfl, hd⟩

theorem decDigitsAcc_natDigs :
    ∀ (n : Nat) (acc : Nat) (x : List Char),
      decDigitsAcc acc (natDigs n ++ x) =
        decDigitsAcc (acc * 10 ^ (natDigs n).length + n) x := by
  intro n
  induction n using Nat.strong_induction_on with
  | _ n ih =>
      intro acc x
      rw [natDigs]
      by_cases h : n < 10
      · rw [dif_pos h]
        simp only [List.cons_append, List.nil_append, List.length_cons,
          List.length_nil, decDigitsAcc]
        rw [if_pos (hexDig_digit n h), hexDig_digit_val n h]
        norm_num
      · rw [dif_neg h]
        rw [List.append_assoc]
        rw [ih (n / 10) (Nat.div_lt_self (by omega) (by omega))]
        simp only [List.cons_append, List.nil_append, decDigitsAcc]
        rw [if_pos (hexDig_digit (n % 10) (Nat.mod_lt _ (by omega))),
          hexDig_digit_val (n % 10) (Nat.mod_lt _ (by omega))]
        have hlen : (natDigs (n / 10) ++ [hexDig (n % 10)]).length =
            (natDigs (n / 10)).length + 1 := by simp
        rw [hlen, pow_succ]
        have hmod := Nat.div_add_mod n 10
        congr 1
        set L := 10 ^ (natDigs (n / 10)).length
        ring_nf
        omega

theorem decDigitsAcc_stop (a : Nat) (x : List Char) (hx : nonDigitHead x) :
    decDigitsAcc a x = (a, x) := by
  cases x with
  | nil => rfl
  | cons c r =>
      simp only [nonDigitHead] at hx
      simp only [decDigitsAcc, hx]
      rw [if_neg (by simp [hx])]

theorem natDigs_inj (n1 n2 : Nat) (x y : List Char)
    (hx : nonDigitHead x) (hy : nonDigitHead y)
    (h : natDigs n1 ++ x = natDigs n2 ++ y) : n1 = n2 ∧ x = y := by
  have h1 := decDigitsAcc_natDigs n1 0 x
  rw [decDigitsAcc_stop _ _ hx] at h1
  have h2 := decDigitsAcc_natDigs n2 0 y
  rw [decDigitsAcc_stop _ _ hy] at h2
  rw [h, h2] at h1
  simp only [Nat.zero_mul, Nat.zero_add, Prod.mk.injEq] at h1
  exact ⟨h1.1.symm, h1.2.symm⟩

theorem BdyP_nonDigit (x : List Char) (h : BdyP x) : nonDigitHead x := by
  cases x with
  | nil => exact absurd h (by simp [BdyP])
  | cons c r =>
      simp only [BdyP] at h
      simp only [nonDigitHead]
      rcases h with h | h <;> rw [h] <;> decide

theorem encInt_head (i : Int) :
    ∃ c rest, encInt i = c :: rest ∧ (c.isDigit = true ∨ c = '-') := by
  cases i with
  | ofNat n =>
      obtain ⟨c, rest, hc, hd⟩ := natDigs_head n
      exact ⟨c, rest, hc, Or.inl hd⟩
  | negSucc m => exact ⟨'-', natDigs (m + 1), rfl, Or.inr rfl⟩

theorem encInt_inj (i1 i2 : Int) (x y : List Char)
    (hx : nonDigitHead x) (hy : nonDigitHead y)
    (h : encInt i1 ++ x = encInt i2 ++ y) : i1 = i2 ∧ x = y := by
  cases i1 with
  | ofNat n1 =>
      cases i2 with
      | ofNat n2 =>
          simp only [encInt] at h
          obtain ⟨hn, hxy⟩ := natDigs_inj n1 n2 x y hx hy h
          exact ⟨by rw [hn], hxy⟩
      | negSucc m2 =>
          simp only [encInt] at h
          obtain ⟨c, rest, hc, hd⟩ := natDigs_head n1
          rw [hc] at h
          simp only [List.cons_append, List.cons.injEq] at h
          rw [h.1] at hd
          exact absurd hd (by decide)
  | negSucc m1 =>
      cases i2 with
      | ofNat n2 =>
          simp only [encInt] at h
          obtain ⟨c, rest, hc, hd⟩ := natDigs_head n2
          rw [hc] at h
          simp only [List.cons_append, List.cons.injEq] at h
          rw [← h.1] at hd
          exact absurd hd (by decide)
      | negSucc m2 =>
          simp only [encInt, List.cons_append, List.cons.injEq] at h
          obtain ⟨hm, hxy⟩ := natDigs_inj (m1 + 1) (m2 + 1) x y hx hy h.2
          exact ⟨by rw [show m1 = m2 by omega], hxy⟩

theorem string_data_inj {s1 s2 : String} (h : s1.data = s2.data) : s1 = s2 := by
  cases s1
  cases s2
  simp only at h
  rw [h]

theorem encVal_inj (v1 v2 : JVal) (x y : List Char)
    (hx : BdyP x) (hy : BdyP y)
    (h : encVal v1 ++ x = encVal v2 ++ y) : v1 = v2 ∧ x = y := by
  have hxd := BdyP_nonDigit x hx
  have hyd := BdyP_nonDigit y hy
  cases v1 with
  | jnull =>
      cases v2 with
      | jnull =>
          simp only [encVal, List.cons_append, List.nil_append,
            List.cons.injEq, true_and] at h
          exact ⟨rfl, h⟩
      | jint i =>
          simp only [encVal] at h
          obtain ⟨c, rest, hc, hd⟩ := encInt_head i
          rw [hc] at h
          simp only [List.cons_append, List.cons.injEq] at h
          rcases hd with hd | hd
          · rw [← h.1] at hd
            exact absurd hd (by decide)
          · rw [hd] at h
            exact absurd h.1 (by decide)
      | jstr s =>
          simp only [encVal, encStr, List.cons_append, List.cons.injEq] at h
          exact absurd h.1 (by decide)
  | jint i1 =>
      cases v2 with
      | jnull =>
          simp only [encVal] at h
          obtain ⟨c, rest, hc, hd⟩ := encInt_head i1
          rw [hc] at h
          simp only [List.cons_append, List.cons.injEq] at h
          rcases hd with hd | hd
          · rw [h.1] at hd
            exact absurd hd (by decide)
          · rw [hd] at h
            exact absurd h.1 (by decide)
      | jint i2 =>
          simp only [encVal] at h
          obtain ⟨hi, hxy⟩ := encInt_inj i1 i2 x y hxd hyd h
          exact ⟨by rw [hi], hxy⟩
      | jstr s =>
          simp only [encVal, encStr] at h
          obtain ⟨c, rest, hc, hd⟩ := encInt_head i1
          rw [hc] at h
          simp only [List.cons_append, List.cons.injEq] at h
          rcases hd with hd | hd
          · rw [h.1] at hd
            exact absurd hd (by decide)
          · rw [hd] at h
            exact absurd h.1 (by decide)
  | jstr s1 =>
      cases v2 with
      | jnull =>
          simp only [encVal, encStr, List.cons_append, List.cons.injEq] at h
          exact absurd h.1 (by decide)
      | jint i2 =>
          simp only [encVal, encStr] at h
          obtain ⟨c, rest, hc, hd⟩ := encInt_head i2
          rw [hc] at h
          simp only [List.cons_append, List.cons.injEq] at h
          rcases hd with hd | hd
          · rw [← h.1] at hd
            exact absurd hd (by decide)
          · rw [hd] at h
            exact absurd h.1 (by decide)
      | jstr s2 =>
          simp only [encVal, encStr, List.cons_append, List.append_assoc,
            List.singleton_append, List.cons.injEq, true_and] at h
          obtain ⟨hdata, hxy⟩ := strBody_inj s1.data s2.data x y h
          exact ⟨by rw [string_data_inj hdata], hxy⟩

theorem encPair_head (p : String × JVal) :
    ∃ rest, encPair p = '"' :: rest := by
  obtain ⟨k, v⟩ := p
  exact ⟨encStrBody k.data ++ ['"'] ++ (':' :: encVal v), by
    simp [encPair, encStr]⟩

theorem encPair_inj (p1 p2 : String × JVal) (x y : List Char)
    (hx : BdyP x) (hy : BdyP y)
    (h : encPair p1 ++ x = encPair p2 ++ y) : p1 = p2 ∧ x = y := by
  obtain ⟨k1, v1⟩ := p1
  obtain ⟨k2, v2⟩ := p2
  have h2 : encStrBody k1.data ++ '"' :: (':' :: (encVal v1 ++ x)) =
      encStrBody k2.data ++ '"' :: (':' :: (encVal v2 ++ y)) := by
    simpa only [encPair, encStr, List.cons_append, List.append_assoc,
      List.singleton_append, List.cons.injEq, true_and] using h
  obtain ⟨hk, htail⟩ := strBody_inj k1.data k2.data _ _ h2
  simp only [List.cons.injEq, true_and] at htail
  obtain ⟨hv, hxy⟩ := encVal_inj v1 v2 x y hx hy htail
  exact ⟨by rw [string_data_inj hk, hv], hxy⟩

theorem BdyP_tail (ps : List (String × JVal)) (x : List Char) :
    BdyP (encPairsTail ps ++ x) := by
  cases ps <;> simp [encPairsTail, BdyP]

theorem encPairsTail_inj :
    ∀ (l1 l2 : List (String × JVal)) (x y : List Char),
      encPairsTail l1 ++ x = encPairsTail l2 ++ y → l1 = l2 ∧ x = y := by
  intro l1
  induction l1 with
  | nil =>
      intro l2 x y h
      cases l2 with
      | nil =>
          simp only [encPairsTail, List.cons_append, List.nil_append,
            List.cons.injEq, true_and] at h
          exact ⟨rfl, h⟩
      | cons p2 t2 =>
          simp only [encPairsTail, List.cons_append, List.cons.injEq] at h
          exact absurd h.1 (by decide)
  | cons p1 t1 ih =>
      intro l2 x y h
      cases l2 with
      | nil =>
          simp only [encPairsTail, List.cons_append, List.cons.injEq] at h
          exact absurd h.1 (by decide)
      | cons p2 t2 =>
          simp only [encPairsTail, List.cons_append, List.append_assoc,
            List.cons.injEq, true_and] at h
          obtain ⟨hp, htail⟩ := encPair_inj p1 p2 _ _ (BdyP_tail t1 x) (BdyP_tail t2 y) h
          obtain ⟨ht, hxy⟩ := ih t2 x y htail
          exact ⟨by rw [hp, ht], hxy⟩

theorem encObj_inj (l1 l2 : List (String × JVal)) (h : encObj l1 = encObj l2) :
    l1 = l2 := by
  cases l1 with
  | nil =>
      cases l2 with
      | nil => rfl
      | cons p2 t2 =>
          obtain ⟨rest, hp⟩ := encPair_head p2
          simp only [encObj, hp, List.cons_append, List.cons.injEq] at h
          exact absurd h.2.1 (by decide)
  | cons p1 t1 =>
      cases l2 with
      | nil =>
          obtain ⟨rest, hp⟩ := encPair_head p1
          simp only [encObj, hp, List.cons_append, List.cons.injEq] at h
          exact absurd h.2.1 (by decide)
      | cons p2 t2 =>
          simp only [encObj, List.cons.injEq, true_and] at h
          have h2 : encPair p1 ++ encPairsTail t1 = encPair p2 ++ encPairsTail t2 := h
          obtain ⟨hp, htail⟩ := encPair_inj p1 p2 _ _
            (by simpa using BdyP_tail t1 []) (by simpa using BdyP_tail t2 []) h2
          obtain ⟨ht, _⟩ := encPairsTail_inj t1 t2 [] []
            (by rw [List.append_nil, List.append_nil, htail])
          rw [hp, ht]

theorem sorted_nodupkeys_perm_eq :
    ∀ (l1 l2 : List (String × JVal)), List.Perm l1 l2 →
      l1.Sorted keyLe → l2.Sorted keyLe → NodupKeys l1 → l1 = l2 := by
  intro l1
  induction l1 with
  | nil =>
      intro l2 hp _ _ _
      exact (List.Perm.nil_eq hp).symm.symm
  | cons a t1 ih =>
      intro l2 hp hs1 hs2 hnd
      cases l2 with
      | nil => exact absurd hp.symm (by simp)
      | cons b t2 =>
          by_cases hab : a = b
          · subst hab
            have hp2 := hp.cons_inv
            have hs1t := (List.sorted_cons.mp hs1).2
            have hs2t := (List.sorted_cons.mp hs2).2
            have hndt : NodupKeys t1 := by
              simp only [NodupKeys, List.map_cons, List.nodup_cons] at hnd
              exact hnd.2
            rw [ih t2 hp2 hs1t hs2t hndt]
          · have hamem : a ∈ b :: t2 := hp.subset (List.mem_cons_self a t1)
            have hat2 : a ∈ t2 := by
              cases List.mem_cons.mp hamem with
              | inl he => exact absurd he hab
              | inr hm => exact hm
            have hbmem : b ∈ a :: t1 := hp.symm.subset (List.mem_cons_self b t2)
            have hbt1 : b ∈ t1 := by
              cases List.mem_cons.mp hbmem with
              | inl he => exact absurd he.symm hab
              | inr hm => exact hm
            have hab1 : keyLe a b := (List.sorted_cons.mp hs1).1 b hbt1
            have hba1 : keyLe b a := (List.sorted_cons.mp hs2).1 a hat2
            have hkeys : a.1 = b.1 := le_antisymm hab1 hba1
            simp only [NodupKeys, List.map_cons, List.nodup_cons] at hnd
            exact absurd (hkeys ▸ List.mem_map_of_mem Prod.fst hbt1) hnd.1

theorem sortPairs_eq_of_perm (l1 l2 : List (String × JVal))
    (hp : List.Perm l1 l2) (hnd : NodupKeys l1) : sortPairs l1 = sortPairs l2 := by
  apply sorted_nodupkeys_perm_eq
  · exact (List.perm_insertionSort keyLe l1).trans
      (hp.trans (List.perm_insertionSort keyLe l2).symm)
  · exact List.sorted_insertionSort keyLe l1
  · exact List.sorted_insertionSort keyLe l2
  · simp only [NodupKeys]
    exact (List.Perm.nodup_iff
      ((List.perm_insertionSort keyLe l1).map Prod.fst)).mpr hnd

theorem canon_inj (l1 l2 : List (String × JVal))
    (h : canonChars l1 = canonChars l2) : List.Perm l1 l2 := by
  have hsort : sortPairs l1 = sortPairs l2 := encObj_inj _ _ h
  have hp1 : List.Perm (sortPairs l1) l1 := List.perm_insertionSort keyLe l1
  have hp2 : List.Perm (sortPairs l2) l2 := List.perm_insertionSort keyLe l2
  have hp3 : List.Perm (sortPairs l1) l2 := by rw [hsort]; exact hp2
  exact hp1.symm.trans hp3

/-- C2: _cache_key is order-independent and injective up to SHA-256
    collision.  First half: two parameter mappings with the same key/value
    multiset (and dict-unique keys) get the same hex digest, whatever the
    insertion order.  Second half: two mappings that are not permutations of
    each other always have different canonical serializations, so their
    digests can only agree if those two distinct byte strings collide under
    SHA-256. -/
theorem c2_cache_key_determinism :
    (∀ l1 l2 : List (String × JVal), List.Perm l1 l2 → NodupKeys l1 →
        cacheKey l1 = cacheKey l2) ∧
    (∀ l1 l2 : List (String × JVal), ¬List.Perm l1 l2 →
        canonChars l1 ≠ canonChars l2 ∧
          (cacheKey l1 = cacheKey l2 →
            Sha256Collision (canonChars l1) (canonChars l2))) := by
  constructor
  · intro l1 l2 hp hnd
    unfold cacheKey canonChars
    rw [sortPairs_eq_of_perm l1 l2 hp hnd]
  · intro l1 l2 hnp
    have hne : canonChars l1 ≠ canonChars l2 := fun he => hnp (canon_inj l1 l2 he)
    exact ⟨hne, fun hk => ⟨hne, hk⟩⟩

theorem c2_cache_key_witness :
    List.Perm [("b", JVal.jint 2), ("a", JVal.jstr "x")]
        [("a", JVal.jstr "x"), ("b", JVal.jint 2)] ∧
      NodupKeys [("b", JVal.jint 2), ("a", JVal.jstr "x")] ∧
      cacheKey [("b", JVal.jint 2), ("a", JVal.jstr "x")] =
        cacheKey [("a", JVal.jstr "x"), ("b", JVal.jint 2)] ∧
      canonChars [("a", JVal.jint 1)] ≠ canonChars [] := by
  have hperm : List.Perm [("b", JVal.jint 2), ("a", JVal.jstr "x")]
      [("a", JVal.jstr "x"), ("b", JVal.jint 2)] :=
    List.Perm.swap ("a", JVal.jstr "x") ("b", JVal.jint 2) []
  have hnd : NodupKeys [("b", JVal.jint 2), ("a", JVal.jstr "x")] := by
    show (List.map Prod.fst [("b", JVal.jint 2), ("a", JVal.jstr "x")]).Nodup
    decide
  refine ⟨hperm, hnd, c2_cache_key_determinism.1 _ _ hperm hnd, ?_⟩
  exact (c2_cache_key_determinism.2 [("a", JVal.jint 1)] []
    (fun hp => by simpa using hp.length_eq)).1

end KARoute
